import Mathlib

/-!
Verification development for the `semverer` repository
(`src/semverer/main.py`, class `ASTVersionInspector`, and `src/semverer/cli.py`).

The Python program is shallowly embedded: Python dicts become insertion-ordered
association lists over `String` keys, the parts of the `ast` module the program
uses become the `PyNode` inductive together with a breadth-first `walk`, the
`semver` library's three-component core becomes `SemVersion`, the `base64` and
`json` standard-library codecs are embedded as executable functions, and
`pyproject.toml` (read and written through `toml`) is modelled by the `Store`
record holding exactly the fields the program touches.
-/

namespace Semverer

/-- A stored signature value, as built by `extract_api`
(`main.py` lines 66-91): a callable becomes the string produced by
`get_function_signature`, a class becomes the method-name → signature-string
dict produced by `get_class_signature`. -/
inductive Sig where
| func (s : String)
| cls (methods : List (String × String))
deriving DecidableEq, Repr

/-- `FileSignatureSet`: the per-file dict `api_elements` built by
`extract_api`, declaration name → `Sig`. Python dicts are modelled as
insertion-ordered association lists. -/
abbrev FileSigs := List (String × Sig)

/-- `Snapshot`: the dict `self.api_signatures`, file path → `FileSigs`. -/
abbrev Snapshot := List (String × FileSigs)

/-- Python dict assignment `d[k] = v`: if the key is present its value is
replaced in place (position kept), otherwise the pair is appended. -/
def dinsert (k : String) (v : α) : List (String × α) → List (String × α)
| [] => [(k, v)]
| (k', v') :: rest => if k' = k then (k, v) :: rest else (k', v') :: dinsert k v rest

/-- Python dict lookup `d.get(k)` / `d[k]`. -/
def dget (k : String) : List (String × α) → Option α
| [] => none
| (k', v) :: rest => if k' = k then some v else dget k rest

/-- The key list of a dict (Python `d.keys()`, in insertion order). -/
def dkeys (d : List (String × α)) : List String := d.map Prod.fst

/-- One direction of Python dict equality: every entry of `a` is present in
`b` with an equal (by `veq`) value. -/
def dsubBy (veq : α → α → Bool) (a b : List (String × α)) : Bool :=
  a.all fun kv => match dget kv.1 b with
  | some v => veq kv.2 v
  | none => false

/-- Python dict equality `a == b`: same keys, equal values, order-insensitive. -/
def deqBy (veq : α → α → Bool) (a b : List (String × α)) : Bool :=
  dsubBy veq a b && dsubBy veq b a

/-- Python `==` on stored signature values: strings compare as strings, method
dicts compare as dicts, a string never equals a dict. -/
def sigEq : Sig → Sig → Bool
| .func a, .func b => a == b
| .cls a, .cls b => deqBy (fun x y => x == y) a b
| _, _ => false

/-- Python `==` on two `FileSigs` dicts. -/
def fileSigsEq (a b : FileSigs) : Bool := deqBy sigEq a b

/-- Python `==` on two snapshots (`old_api != self.api_signatures` in `run`,
`main.py` line 150, is the negation of this). -/
def snapEq (a b : Snapshot) : Bool := deqBy fileSigsEq a b

/-- The fragment of the Python `ast` node tree the program inspects:
`FunctionDef` (name, positional argument names `args.args`, body),
`ClassDef` (name, body), and every other statement kind collapsed to
`other` keeping only the child statements that `ast.iter_child_nodes`
would yield. -/
inductive PyNode where
| funcDef (name : String) (args : List String) (body : List PyNode)
| classDef (name : String) (body : List PyNode)
| other (children : List PyNode)
deriving Repr

/-- An `ast.Module`: the result of a successful `ast.parse`. The module node
itself is neither a `FunctionDef` nor a `ClassDef`. -/
structure PyModule where
  body : List PyNode
deriving Repr

/-- `ast.iter_child_nodes` restricted to the statement children (argument and
expression child nodes can never be `FunctionDef`/`ClassDef` nodes, so they
are irrelevant to `extract_api` and omitted). -/
def PyNode.children : PyNode → List PyNode
| .funcDef _ _ body => body
| .classDef _ body => body
| .other cs => cs

mutual

/-- Node count of a tree (≥ 1), used as fuel for the breadth-first walk. -/
def nodeSize : PyNode → Nat
| .funcDef _ _ body => 1 + sizeL body
| .classDef _ body => 1 + sizeL body
| .other cs => 1 + sizeL cs

/-- Total node count of a forest. -/
def sizeL : List PyNode → Nat
| [] => 0
| n :: ns => nodeSize n + sizeL ns

end

/-- The loop of `ast.walk`: pop the queue head, yield it, push its children at
the back. The fuel argument bounds the number of iterations; `walkList`
supplies enough fuel for the queue to drain. -/
def walkAux : Nat → List PyNode → List PyNode
| _, [] => []
| 0, _ :: _ => []
| fuel + 1, n :: queue => n :: walkAux fuel (queue ++ n.children)

/-- `ast.walk` started on a module: breadth-first over the module body (the
module node itself is yielded first by Python but matches neither
`isinstance` test in `extract_api`, so it is dropped here). -/
def walkList (roots : List PyNode) : List PyNode := walkAux (sizeL roots) roots

/-- `get_function_signature` (`main.py` lines 80-83):
`"def name(a, b)"` from the positional parameter names in order. -/
def get_function_signature (name : String) (args : List String) : String :=
  "def " ++ name ++ "(" ++ String.intercalate ", " args ++ ")"

/-- The per-child step of `get_class_signature`: a `FunctionDef` child
contributes `name ↦ get_function_signature`, every other child contributes
nothing. -/
def methodSig : PyNode → Option (String × String)
| .funcDef n args _ => some (n, get_function_signature n args)
| _ => none

/-- Dict-building fold shared by `extract_api` and `get_class_signature`:
scan a node list, and for each node that the selector `g` maps to a
key-value pair perform the Python dict assignment. -/
def afold (g : PyNode → Option (String × β)) (acc : List (String × β)) :
    List PyNode → List (String × β)
| [] => acc
| nd :: rest =>
  match g nd with
  | some (k, v) => afold g (dinsert k v acc) rest
  | none => afold g acc rest

/-- `get_class_signature` (`main.py` lines 85-91): dict of the directly
nested `FunctionDef` children of a class body. -/
def get_class_signature (body : List PyNode) : List (String × String) :=
  afold methodSig [] body

/-- The per-node step of `extract_api`'s walk loop: a `FunctionDef` is
assigned its function signature, a `ClassDef` its class signature dict, any
other node is skipped. -/
def defSig : PyNode → Option (String × Sig)
| .funcDef n args _ => some (n, .func (get_function_signature n args))
| .classDef n body => some (n, .cls (get_class_signature body))
| .other _ => none

/-- `extract_api` (`main.py` lines 66-78) applied to an already-parsed
module: fold the Python dict assignments over `ast.walk(tree)`. -/
def extract_api (m : PyModule) : FileSigs :=
  afold defSig [] (walkList m.body)

/-- A three-component semantic version, the core of `semver.Version`
(the spec's `VersionTriple`: no pre-release or build metadata). -/
structure SemVersion where
  major : Nat
  minor : Nat
  patch : Nat
deriving DecidableEq, Repr

/-- `semver.Version.bump_major`: increment major, reset minor and patch. -/
def bumpMajor (v : SemVersion) : SemVersion := ⟨v.major + 1, 0, 0⟩

/-- `semver.Version.bump_minor`: increment minor, reset patch. -/
def bumpMinor (v : SemVersion) : SemVersion := ⟨v.major, v.minor + 1, 0⟩

/-- `semver.Version.bump_patch`: increment patch. -/
def bumpPatch (v : SemVersion) : SemVersion := ⟨v.major, v.minor, v.patch + 1⟩

/-- Decimal digits of a natural number; the first argument is fuel (any
value above the digit count works). -/
def natReprAux : Nat → Nat → List Char
| 0, _ => []
| fuel + 1, n =>
  if n < 10 then [Char.ofNat (48 + n)]
  else natReprAux fuel (n / 10) ++ [Char.ofNat (48 + n % 10)]

/-- Decimal rendering of a natural number (`str` on a Python int). -/
def natRepr (n : Nat) : String := String.mk (natReprAux (n + 1) n)

/-- `str(version)` for a three-component version. -/
def renderVersion (v : SemVersion) : String :=
  natRepr v.major ++ "." ++ natRepr v.minor ++ "." ++ natRepr v.patch

/-- A numeric version identifier per the semver grammar: digits only, no
leading zero unless the identifier is exactly `0`. -/
def parseNumericId (cs : List Char) : Option Nat :=
  if cs ≠ [] && cs.all (fun c => 48 ≤ c.toNat && c.toNat ≤ 57)
      && !(cs.length > 1 && cs.headD '0' = '0') then
    some (cs.foldl (fun n c => n * 10 + (c.toNat - 48)) 0)
  else none

/-- Split a character list at every `.` (the shape of the semver grammar's
`major.minor.patch` decomposition). -/
def splitDots : List Char → List (List Char)
| [] => [[]]
| c :: rest =>
  if c = '.' then [] :: splitDots rest
  else
    match splitDots rest with
    | [] => [[c]]
    | p :: ps => (c :: p) :: ps

/-- `semver.Version.parse` restricted to three-component cores (the spec's
`VersionTriple` explicitly excludes pre-release and build metadata); any
other string is a `ValueError`. -/
def parseVersion (s : String) : Option SemVersion :=
  match (splitDots s.toList).map parseNumericId with
  | [some a, some b, some c] => some ⟨a, b, c⟩
  | _ => none

/-- `increment_version` (`main.py` lines 134-143): parse the current version
(a `ValueError` from `semver.Version.parse` propagates as an error), then
apply at most one bump, gated by the counters in major-minor-patch order.
Python `if major:` on a non-negative count is `major ≠ 0`. -/
def increment_version (cur : String) (major minor patch : Nat) :
    Except String String :=
  match parseVersion cur with
  | none => .error ("ValueError: " ++ cur ++ " is not valid SemVer string")
  | some v =>
    .ok (renderVersion
      (if major ≠ 0 then bumpMajor v
       else if minor ≠ 0 then bumpMinor v
       else if patch ≠ 0 then bumpPatch v
       else v))

/-- The standard base64 alphabet used by `base64.b64encode`/`b64decode`. -/
def b64chars : List Char :=
  "ABCDEFGHIJKLMNOPQRSTUVWXYZabcdefghijklmnopqrstuvwxyz0123456789+/".toList

/-- The alphabet character for a 6-bit value. -/
def b64char (n : Nat) : Char := b64chars.getD n 'A'

/-- Position of a character in the base64 alphabet. -/
def b64indexAux : List Char → Nat → Char → Option Nat
| [], _, _ => none
| c :: rest, i, t => if c = t then some i else b64indexAux rest (i + 1) t

/-- Position of a character in the base64 alphabet (`none` for `=` and for
characters outside the alphabet). -/
def b64index (c : Char) : Option Nat := b64indexAux b64chars 0 c

/-- `base64.b64encode` on a byte list (each byte < 256): 3 bytes → 4
characters, with `=` padding for a 1- or 2-byte tail. -/
def b64encodeBytes : List Nat → List Char
| b1 :: b2 :: b3 :: rest =>
  let n := b1 * 65536 + b2 * 256 + b3
  b64char (n / 262144 % 64) :: b64char (n / 4096 % 64) ::
    b64char (n / 64 % 64) :: b64char (n % 64) :: b64encodeBytes rest
| [b1, b2] =>
  let n := b1 * 1024 + b2 * 4
  [b64char (n / 4096 % 64), b64char (n / 64 % 64), b64char (n % 64), '=']
| [b1] =>
  let n := b1 * 16
  [b64char (n / 64 % 64), b64char (n % 64), '=', '=']
| [] => []

/-- Decode base64 quads (input already filtered to alphabet characters and
`=`). A tail that is not a complete quad is the `binascii.Error: Invalid
base64-encoded string` that `base64.b64decode` raises; `=` anywhere but in
the final positions of the last quad is also rejected. -/
def b64decodeGroups : List Char → Option (List Nat)
| [] => some []
| c1 :: c2 :: c3 :: c4 :: rest =>
  match b64index c1, b64index c2 with
  | some n1, some n2 =>
    if c3 = '=' then
      if c4 = '=' && rest.isEmpty then some [n1 * 4 + n2 / 16]
      else none
    else
      match b64index c3 with
      | some n3 =>
        if c4 = '=' then
          if rest.isEmpty then some [n1 * 4 + n2 / 16, n2 % 16 * 16 + n3 / 4]
          else none
        else
          match b64index c4 with
          | some n4 =>
            (b64decodeGroups rest).map fun bs =>
              (n1 * 4 + n2 / 16) :: (n2 % 16 * 16 + n3 / 4) :: (n3 % 4 * 64 + n4) :: bs
          | none => none
      | none => none
  | _, _ => none
| _ => none

/-- `base64.b64decode` on a `str` argument with the default
`validate=False`: the string must be ASCII (it is encoded with the `ascii`
codec first), characters outside the alphabet are discarded, and the
remaining data must form complete quads. `none` models the raised
`binascii.Error`/`ValueError`. -/
def b64decode (s : String) : Option (List Nat) :=
  if s.toList.all (fun c => c.toNat < 128) then
    b64decodeGroups (s.toList.filter fun c => (b64index c).isSome || c = '=')
  else none

/-- UTF-8 encoding of one character (`str.encode()`). -/
def utf8EncodeChar (c : Char) : List Nat :=
  let n := c.toNat
  if n < 128 then [n]
  else if n < 2048 then [192 + n / 64, 128 + n % 64]
  else if n < 65536 then [224 + n / 4096, 128 + n / 64 % 64, 128 + n % 64]
  else [240 + n / 262144, 128 + n / 4096 % 64, 128 + n / 64 % 64, 128 + n % 64]

/-- `str.encode()`: UTF-8 bytes of a string. -/
def strToBytes (s : String) : List Nat :=
  s.toList.foldr (fun c acc => utf8EncodeChar c ++ acc) []

/-- Payload of a UTF-8 continuation byte. -/
def utf8Cont (b : Nat) : Option Nat :=
  if 128 ≤ b && b < 192 then some (b % 64) else none

/-- UTF-8 decoding (`bytes.decode()`), rejecting truncated sequences,
overlong encodings, surrogates and out-of-range code points; `none` models
the raised `UnicodeDecodeError`. The first argument is fuel. -/
def utf8DecodeAux : Nat → List Nat → Option (List Char)
| _, [] => some []
| 0, _ :: _ => none
| fuel + 1, b :: rest =>
  if b < 128 then (utf8DecodeAux fuel rest).map (Char.ofNat b :: ·)
  else if b < 194 then none
  else if b < 224 then
    match rest with
    | b2 :: rest' =>
      match utf8Cont b2 with
      | some x => (utf8DecodeAux fuel rest').map (Char.ofNat ((b - 192) * 64 + x) :: ·)
      | none => none
    | [] => none
  else if b < 240 then
    match rest with
    | b2 :: b3 :: rest' =>
      match utf8Cont b2, utf8Cont b3 with
      | some x, some y =>
        let n := (b - 224) * 4096 + x * 64 + y
        if n < 2048 || (55296 ≤ n && n < 57344) then none
        else (utf8DecodeAux fuel rest').map (Char.ofNat n :: ·)
      | _, _ => none
    | _ => none
  else if b < 245 then
    match rest with
    | b2 :: b3 :: b4 :: rest' =>
      match utf8Cont b2, utf8Cont b3, utf8Cont b4 with
      | some x, some y, some z =>
        let n := (b - 240) * 262144 + x * 4096 + y * 64 + z
        if n < 65536 || n > 1114111 then none
        else (utf8DecodeAux fuel rest').map (Char.ofNat n :: ·)
      | _, _, _ => none
    | _ => none
  else none

/-- `bytes.decode()`: UTF-8 decoding of a byte list. -/
def bytesToStr (bs : List Nat) : Option String :=
  (utf8DecodeAux (bs.length + 1) bs).map String.mk

/-- Opening brace character. -/
def lbraceCh : Char := Char.ofNat 123

/-- Closing brace character. -/
def rbraceCh : Char := Char.ofNat 125

/-- Lowercase hexadecimal digit. -/
def hexDigit (n : Nat) : Char :=
  if n < 10 then Char.ofNat (48 + n) else Char.ofNat (87 + n)

/-- A `\uXXXX` escape for a 16-bit value, as `json.dumps` emits. -/
def uEscape (n : Nat) : String :=
  "\\u" ++ String.mk [hexDigit (n / 4096 % 16), hexDigit (n / 256 % 16),
    hexDigit (n / 16 % 16), hexDigit (n % 16)]

/-- `json.dumps` escaping of one character with the default
`ensure_ascii=True`: short escapes for the common controls, `\uXXXX` for
other controls and for every non-ASCII character (surrogate pairs above
U+FFFF). -/
def jsonEscapeChar (c : Char) : String :=
  let n := c.toNat
  if c = '"' then "\\\""
  else if c = '\\' then "\\\\"
  else if c = '\n' then "\\n"
  else if c = '\t' then "\\t"
  else if c = '\r' then "\\r"
  else if n = 8 then "\\b"
  else if n = 12 then "\\f"
  else if n < 32 then uEscape n
  else if n < 127 then String.mk [c]
  else if n < 65536 then uEscape n
  else uEscape (55296 + (n - 65536) / 1024) ++ uEscape (56320 + (n - 65536) % 1024)

/-- A JSON string literal as `json.dumps` renders it. -/
def jsonString (s : String) : String :=
  "\"" ++ String.join (s.toList.map jsonEscapeChar) ++ "\""

/-- A JSON object from rendered members, with the `json.dumps` default
separators (`", "` between members, `": "` after keys is applied by the
callers). -/
def jsonObj (items : List String) : String :=
  String.mk [lbraceCh] ++ String.intercalate ", " items ++ String.mk [rbraceCh]

/-- `json.dumps` on a dict of strings (a class signature). -/
def jsonDumpsStrDict (d : List (String × String)) : String :=
  jsonObj (d.map fun kv => jsonString kv.1 ++ ": " ++ jsonString kv.2)

/-- `json.dumps` on one stored signature value. -/
def jsonDumpsSig : Sig → String
| .func s => jsonString s
| .cls methods => jsonDumpsStrDict methods

/-- `json.dumps` on one `FileSigs` dict. -/
def jsonDumpsFileSigs (d : FileSigs) : String :=
  jsonObj (d.map fun kv => jsonString kv.1 ++ ": " ++ jsonDumpsSig kv.2)

/-- `json.dumps(self.api_signatures)` (`main.py` line 46). -/
def jsonDumpsSnapshot (d : Snapshot) : String :=
  jsonObj (d.map fun kv => jsonString kv.1 ++ ": " ++ jsonDumpsFileSigs kv.2)

/-- JSON insignificant whitespace. -/
def isJsonWs (c : Char) : Bool := c = ' ' || c = '\t' || c = '\n' || c = '\r'

/-- Drop leading JSON whitespace. -/
def skipWs : List Char → List Char
| [] => []
| c :: rest => if isJsonWs c then skipWs rest else c :: rest

/-- Value of a hexadecimal digit. -/
def hexVal (c : Char) : Option Nat :=
  let n := c.toNat
  if 48 ≤ n && n ≤ 57 then some (n - 48)
  else if 97 ≤ n && n ≤ 102 then some (n - 87)
  else if 65 ≤ n && n ≤ 70 then some (n - 55)
  else none

/-- Four hexadecimal digits after a `\u` escape. -/
def parseHex4 : List Char → Option (Nat × List Char)
| a :: b :: c :: d :: rest =>
  match hexVal a, hexVal b, hexVal c, hexVal d with
  | some x, some y, some z, some w => some (x * 4096 + y * 256 + z * 16 + w, rest)
  | _, _, _, _ => none
| _ => none

/-- Body of a JSON string literal after the opening quote, per the JSON
grammar accepted by `json.loads` (raw control characters are rejected; a
`\u` escape in the surrogate range must form a valid pair — `json.loads`
additionally tolerates lone surrogates, which Lean characters cannot
represent, so those are rejected here). The first argument is fuel. -/
def parseStringBody : Nat → List Char → Option (List Char × List Char)
| 0, _ => none
| _, [] => none
| fuel + 1, c :: rest =>
  if c = '"' then some ([], rest)
  else if c = '\\' then
    match rest with
    | [] => none
    | e :: rest' =>
      if e = '"' || e = '\\' || e = '/' then
        (parseStringBody fuel rest').map fun (cs, r) => (e :: cs, r)
      else if e = 'n' then (parseStringBody fuel rest').map fun (cs, r) => ('\n' :: cs, r)
      else if e = 't' then (parseStringBody fuel rest').map fun (cs, r) => ('\t' :: cs, r)
      else if e = 'r' then (parseStringBody fuel rest').map fun (cs, r) => ('\r' :: cs, r)
      else if e = 'b' then (parseStringBody fuel rest').map fun (cs, r) => (Char.ofNat 8 :: cs, r)
      else if e = 'f' then (parseStringBody fuel rest').map fun (cs, r) => (Char.ofNat 12 :: cs, r)
      else if e = 'u' then
        match parseHex4 rest' with
        | none => none
        | some (n, r1) =>
          if 55296 ≤ n && n < 56320 then
            match r1 with
            | u1 :: u2 :: r2 =>
              if u1 = '\\' && u2 = 'u' then
                match parseHex4 r2 with
                | none => none
                | some (m, r3) =>
                  if 56320 ≤ m && m < 57344 then
                    (parseStringBody fuel r3).map fun (cs, r) =>
                      (Char.ofNat (65536 + (n - 55296) * 1024 + (m - 56320)) :: cs, r)
                  else none
              else none
            | _ => none
          else if 56320 ≤ n && n < 57344 then none
          else (parseStringBody fuel r1).map fun (cs, r) => (Char.ofNat n :: cs, r)
      else none
  else if c.toNat < 32 then none
  else (parseStringBody fuel rest).map fun (cs, r) => (c :: cs, r)

/-- A JSON string literal including the opening quote. -/
def parseJString (fuel : Nat) (l : List Char) : Option (String × List Char) :=
  match l with
  | c :: rest =>
    if c = '"' then (parseStringBody fuel rest).map fun (cs, r) => (String.mk cs, r)
    else none
  | [] => none

/-- The member list of a JSON object, positioned after `\x7b` or after a
comma: `"key": value` pairs separated by commas, closed by `\x7d`. Members
are returned in source order. -/
def parseMembers (parseVal : Nat → List Char → Option (β × List Char)) :
    Nat → List Char → Option (List (String × β) × List Char)
| 0, _ => none
| fuel + 1, l =>
  match parseJString fuel (skipWs l) with
  | none => none
  | some (k, r) =>
    match skipWs r with
    | ':' :: r2 =>
      match parseVal fuel (skipWs r2) with
      | none => none
      | some (v, r3) =>
        match skipWs r3 with
        | ',' :: r4 =>
          (parseMembers parseVal fuel r4).map fun (ms, r5) => ((k, v) :: ms, r5)
        | c :: r4 => if c = rbraceCh then some ([(k, v)], r4) else none
        | [] => none
    | _ => none

/-- A JSON object whose values are parsed by `parseVal`; duplicate keys
keep the last occurrence, as `json.loads` does for Python dicts. -/
def parseObj (parseVal : Nat → List Char → Option (β × List Char))
    (fuel : Nat) (l : List Char) : Option (List (String × β) × List Char) :=
  match l with
  | c :: rest =>
    if c = lbraceCh then
      match skipWs rest with
      | c2 :: r2 =>
        if c2 = rbraceCh then some ([], r2)
        else
          (parseMembers parseVal fuel (c2 :: r2)).map fun (ms, r) =>
            (ms.foldl (fun acc kv => dinsert kv.1 kv.2 acc) [], r)
      | [] => none
    else none
  | [] => none

/-- One stored signature value in JSON form: a string (function signature)
or an object of strings (class methods). This is `json.loads` restricted to
the shape `json.dumps` gives the serialized snapshot; any other JSON value
is rejected as not decodable into a snapshot. -/
def parseSigVal (fuel : Nat) (l : List Char) : Option (Sig × List Char) :=
  match l with
  | c :: _ =>
    if c = '"' then (parseJString fuel l).map fun (s, r) => (Sig.func s, r)
    else (parseObj parseJString fuel l).map fun (d, r) => (Sig.cls d, r)
  | [] => none

/-- One `FileSigs` dict in JSON form. -/
def parseFileSigsVal (fuel : Nat) (l : List Char) : Option (FileSigs × List Char) :=
  parseObj parseSigVal fuel l

/-- `json.loads` on the serialized snapshot text: a two-level object of
signature values, with nothing but whitespace after it. -/
def parseSnapshotJson (s : String) : Option Snapshot :=
  match parseObj parseFileSigsVal (s.toList.length + 2) (skipWs s.toList) with
  | some (snap, r) => if (skipWs r).isEmpty then some snap else none
  | none => none

/-- The persisted configuration store: the fields of `pyproject.toml` the
program reads and writes, plus whether the file exists at all. `toml.load`
and `toml.dump` are modelled at this field level: `projectVersion = none`
means no `project` table, `some none` a `project` table without `version`;
`apiSignaturesField = ""` covers both a missing
`tool.ast_inspector.api_signatures` entry and an empty one, which
`load_api_signatures` treats identically. -/
structure Store where
  present : Bool
  projectVersion : Option (Option String)
  apiSignaturesField : String
  lastChanges : List String
deriving DecidableEq, Repr

/-- `load_version` (`main.py` lines 21-27):
`data.get("project", {}).get("version", "0.1.0")`, with `"0.1.0"` when the
file does not exist. -/
def load_version (store : Store) : String :=
  if store.present then
    match store.projectVersion with
    | some (some v) => v
    | _ => "0.1.0"
  else "0.1.0"

/-- `base64.b64encode(s.encode()).decode()` on a string. -/
def b64encodeStr (s : String) : String := String.mk (b64encodeBytes (strToBytes s))

/-- The serialized snapshot written by `save_version` (`main.py` line 46):
`base64.b64encode(json.dumps(self.api_signatures).encode()).decode()`. -/
def serializeSnapshot (snap : Snapshot) : String := b64encodeStr (jsonDumpsSnapshot snap)

/-- `json.loads(base64.b64decode(encoded_signatures).decode())`
(`main.py` line 63), with each stage's exception surfaced as an error:
none of the three calls is guarded by a `try`. -/
def decodeApiSignatures (s : String) : Except String Snapshot :=
  match b64decode s with
  | none => .error "binascii.Error: Invalid base64-encoded string"
  | some bytes =>
    match bytesToStr bytes with
    | none => .error "UnicodeDecodeError: invalid utf-8 data"
    | some txt =>
      match parseSnapshotJson txt with
      | none => .error "json.decoder.JSONDecodeError: Expecting value"
      | some snap => .ok snap

/-- `load_api_signatures` (`main.py` lines 56-64): a missing file or a
missing/empty `api_signatures` field yields the empty dict; a non-empty
field is decoded, and a decoding exception propagates. -/
def load_api_signatures (store : Store) : Except String Snapshot :=
  if store.present then
    if store.apiSignaturesField ≠ "" then decodeApiSignatures store.apiSignaturesField
    else .ok []
  else .ok []

/-- One file yielded by `os.walk` during `scan_package`: the joined path
used as the snapshot key, the bare file name tested by
`endswith`/`startswith`, and the `ast.parse` outcome of its contents
(`.error msg` models a `SyntaxError`). -/
structure FileEntry where
  path : String
  name : String
  tree : Except String PyModule
deriving Repr

/-- Whether the second character list is an initial segment of the first. -/
def strStartsAux : List Char → List Char → Bool
| _, [] => true
| [], _ :: _ => false
| a :: as, b :: bs => a = b && strStartsAux as bs

/-- Python `str.startswith`. -/
def strStarts (s pat : String) : Bool := strStartsAux s.toList pat.toList

/-- Python `str.endswith`. -/
def strEnds (s pat : String) : Bool :=
  strStartsAux s.toList.reverse pat.toList.reverse

/-- The file filter of `scan_package` (`main.py` line 97):
`file.endswith(".py") and not file.startswith("_")`. -/
def eligible (e : FileEntry) : Bool :=
  strEnds e.name ".py" && !(strStarts e.name "_")

/-- `scan_package` (`main.py` lines 93-99): for each selected file, assign
`self.api_signatures[file_path] = self.extract_api(file_path)` into the
dict it starts from (the snapshot loaded at construction time — stale keys
are never removed). A `SyntaxError` from `extract_api`'s `ast.parse`
aborts the walk and propagates. -/
def scan_package (acc : Snapshot) : List FileEntry → Except String Snapshot
| [] => .ok acc
| e :: rest =>
  if eligible e then
    match e.tree with
    | .error msg => .error msg
    | .ok m => scan_package (dinsert e.path (extract_api m) acc) rest
  else scan_package acc rest

/-- Running counters and change records of `detect_changes`. -/
structure DiffState where
  major : Nat
  minor : Nat
  patch : Nat
  changes : List String
deriving DecidableEq, Repr

/-- The loop body of `detect_changes` for one file of `new_signatures`:
additions and signature changes from the new dict's keys, then removals
from the old dict's keys. -/
def fileDiff (old_signatures : Snapshot) (st : DiffState)
    (fkv : String × FileSigs) : DiffState :=
  let file := fkv.1
  let new_api := fkv.2
  let old_api := (dget file old_signatures).getD []
  let st := new_api.foldl (fun st kv =>
    match dget kv.1 old_api with
    | none =>
      { st with
          minor := st.minor + 1
          changes := st.changes ++ ["Added " ++ kv.1 ++ " in " ++ file] }
    | some oldv =>
      if sigEq kv.2 oldv then st
      else
        { st with
            major := st.major + 1
            changes := st.changes ++
              ["Changed signature of " ++ kv.1 ++ " in " ++ file ++ ":\n"] }) st
  old_api.foldl (fun st kv =>
    match dget kv.1 new_api with
    | none =>
      { st with
          major := st.major + 1
          changes := st.changes ++ ["Removed " ++ kv.1 ++ " from " ++ file] }
    | some _ => st) st

/-- The counter-and-record accumulation of `detect_changes`
(`main.py` lines 110-131): one `fileDiff` pass per entry of
`new_signatures`, in insertion order; files present only in
`old_signatures` are never visited. -/
def detectTally (old_signatures new_signatures : Snapshot) : DiffState :=
  new_signatures.foldl (fileDiff old_signatures) ⟨0, 0, 0, []⟩

/-- `detect_changes` (`main.py` lines 110-132): the accumulated tally fed
into `increment_version` on the current version string, paired with the
change records. -/
def detect_changes (cur : String) (old_signatures new_signatures : Snapshot) :
    Except String (String × List String) :=
  let st := detectTally old_signatures new_signatures
  match increment_version cur st.major st.minor st.patch with
  | .error e => .error e
  | .ok v => .ok (v, st.changes)

/-- `save_version` (`main.py` lines 29-54): in dry-run mode only print and
return; otherwise, when the file exists and has a `project` table, write
the new version, the serialized snapshot and the change list together, and
when it does not, write nothing. -/
def save_version (store : Store) (api_signatures : Snapshot) (dry_run : Bool)
    (new_version : String) (changes : List String) : Store :=
  if dry_run then store
  else if store.present then
    match store.projectVersion with
    | some _ =>
      { store with
          projectVersion := some (some new_version)
          apiSignaturesField := serializeSnapshot api_signatures
          lastChanges := changes }
    | none => store
  else store

/-- The two terminal reports of `run`. -/
inductive RunOutcome where
| noChanges
| updated (newVersion : String) (changes : List String)
deriving DecidableEq, Repr

/-- The whole pipeline as the CLI invokes it (`cli.py`:
`ASTVersionInspector(package_path, dry_run).run()`): construction loads the
version and the stored snapshot (a decoding exception propagates), then
`run` (`main.py` lines 145-155) scans, compares the old and new snapshot
dicts, and on a difference classifies and saves. The first component of
the result is the store after the run — unchanged on every path that does
not reach a real `save_version` write. -/
def run (store : Store) (found : List FileEntry) (dry_run : Bool) :
    Store × Except String RunOutcome :=
  match load_api_signatures store with
  | .error e => (store, .error e)
  | .ok api0 =>
    let current_version := load_version store
    match scan_package api0 found with
    | .error e => (store, .error e)
    | .ok newSigs =>
      if snapEq api0 newSigs then (store, .ok .noChanges)
      else
        match detect_changes current_version api0 newSigs with
        | .error e => (store, .error e)
        | .ok (new_version, changes) =>
          (save_version store newSigs dry_run new_version changes,
            .ok (.updated new_version changes))

mutual

/-- All nodes of a tree, depth-first (specification-side companion of the
breadth-first `ast.walk`: same membership, different order). -/
def allNodes : PyNode → List PyNode
| .funcDef n a b => .funcDef n a b :: allNodesL b
| .classDef n b => .classDef n b :: allNodesL b
| .other cs => .other cs :: allNodesL cs

/-- All nodes of a forest, depth-first. -/
def allNodesL : List PyNode → List PyNode
| [] => []
| n :: ns => allNodes n ++ allNodesL ns

end

/-- Decidable statement that every node of `l` that `g` maps to key `k`
carries the value `v` (i.e. the key is not reassigned with a different
value anywhere in `l`). -/
def agreesOn (g : PyNode → Option (String × β)) [DecidableEq β]
    (k : String) (v : β) (l : List PyNode) : Bool :=
  l.all fun nd =>
    match g nd with
    | some kv => decide (kv.1 = k → kv.2 = v)
    | none => true

theorem dget_dinsert_self (k : String) (v : α) (d : List (String × α)) :
    dget k (dinsert k v d) = some v := by
  induction d with
  | nil => simp [dinsert, dget]
  | cons kv rest ih =>
    obtain ⟨k', v'⟩ := kv
    by_cases h : k' = k
    · simp [dinsert, dget, h]
    · simp [dinsert, dget, h, ih]

theorem dget_dinsert_ne (k k' : String) (v : α) (d : List (String × α))
    (h : k ≠ k') : dget k (dinsert k' v d) = dget k d := by
  have h' : ¬(k' = k) := fun hh => h hh.symm
  induction d with
  | nil => simp [dinsert, dget, h']
  | cons kv rest ih =>
    obtain ⟨a, b⟩ := kv
    by_cases ha : a = k'
    · subst ha
      simp [dinsert, dget, h']
    · simp only [dinsert, if_neg ha, dget]
      by_cases hk : a = k
      · simp [hk]
      · simp [hk, ih]

theorem mem_dkeys_dinsert (k0 k : String) (v : α) (d : List (String × α)) :
    k0 ∈ dkeys (dinsert k v d) ↔ k0 = k ∨ k0 ∈ dkeys d := by
  induction d with
  | nil => simp [dinsert, dkeys]
  | cons kv rest ih =>
    obtain ⟨a, b⟩ := kv
    by_cases ha : a = k
    · subst ha
      simp [dinsert, dkeys]
    · simp only [dinsert, if_neg ha, dkeys, List.map_cons, List.mem_cons] at ih ⊢
      tauto

theorem mem_dkeys_afold (g : PyNode → Option (String × β)) (k : String)
    (l : List PyNode) : ∀ acc, k ∈ dkeys (afold g acc l) ↔
      k ∈ dkeys acc ∨ ∃ nd ∈ l, ∃ v, g nd = some (k, v) := by
  induction l with
  | nil => simp [afold]
  | cons nd rest ih =>
    intro acc
    cases hg : g nd with
    | none =>
      simp only [afold, hg, ih, List.mem_cons]
      constructor
      · rintro (h | ⟨nd', h1, h2⟩)
        · exact Or.inl h
        · exact Or.inr ⟨nd', Or.inr h1, h2⟩
      · rintro (h | ⟨nd', (rfl | h1), h2⟩)
        · exact Or.inl h
        · simp [hg] at h2
        · exact Or.inr ⟨nd', h1, h2⟩
    | some kv =>
      obtain ⟨k1, v1⟩ := kv
      simp only [afold, hg, ih, mem_dkeys_dinsert, List.mem_cons]
      constructor
      · rintro ((rfl | h) | ⟨nd', h1, h2⟩)
        · exact Or.inr ⟨nd, Or.inl rfl, v1, hg⟩
        · exact Or.inl h
        · exact Or.inr ⟨nd', Or.inr h1, h2⟩
      · rintro (h | ⟨nd', (rfl | h1), v', h2⟩)
        · exact Or.inl (Or.inr h)
        · rw [hg] at h2
          cases h2
          exact Or.inl (Or.inl rfl)
        · exact Or.inr ⟨nd', h1, v', h2⟩

theorem dget_afold_of_agree (g : PyNode → Option (String × β)) (k : String)
    (v : β) (l : List PyNode) : ∀ acc, dget k acc = some v →
      (∀ nd ∈ l, ∀ v', g nd = some (k, v') → v' = v) →
      dget k (afold g acc l) = some v := by
  induction l with
  | nil =>
    intro acc hacc _
    simpa [afold] using hacc
  | cons nd rest ih =>
    intro acc hacc hagree
    cases hg : g nd with
    | none =>
      simp only [afold, hg]
      exact ih acc hacc fun nd' h1 => hagree nd' (List.mem_cons_of_mem _ h1)
    | some kv =>
      obtain ⟨k1, v1⟩ := kv
      simp only [afold, hg]
      by_cases hk : k1 = k
      · subst hk
        have hv : v1 = v := hagree nd (List.mem_cons_self _ _) v1 hg
        subst hv
        exact ih _ (dget_dinsert_self _ _ _)
          fun nd' h1 => hagree nd' (List.mem_cons_of_mem _ h1)
      · refine ih _ ?_ fun nd' h1 => hagree nd' (List.mem_cons_of_mem _ h1)
        rw [dget_dinsert_ne k k1 v1 acc fun hh => hk hh.symm]
        exact hacc

theorem dget_afold_of_mem (g : PyNode → Option (String × β)) (k : String)
    (v : β) (l : List PyNode) : ∀ acc, (∃ nd ∈ l, g nd = some (k, v)) →
      (∀ nd ∈ l, ∀ v', g nd = some (k, v') → v' = v) →
      dget k (afold g acc l) = some v := by
  induction l with
  | nil =>
    rintro acc ⟨nd, h, _⟩ _
    simp at h
  | cons nd rest ih =>
    rintro acc ⟨nd0, h0, hg0⟩ hagree
    cases hg : g nd with
    | none =>
      simp only [afold, hg]
      rcases List.mem_cons.mp h0 with rfl | h0'
      · rw [hg] at hg0
        cases hg0
      · exact ih acc ⟨nd0, h0', hg0⟩
          fun nd' h1 => hagree nd' (List.mem_cons_of_mem _ h1)
    | some kv =>
      obtain ⟨k1, v1⟩ := kv
      simp only [afold, hg]
      by_cases hk : k1 = k
      · subst hk
        have hv : v1 = v := hagree nd (List.mem_cons_self _ _) v1 hg
        subst hv
        exact dget_afold_of_agree g _ _ rest _ (dget_dinsert_self _ _ _)
          fun nd' h1 => hagree nd' (List.mem_cons_of_mem _ h1)
      · rcases List.mem_cons.mp h0 with rfl | h0'
        · rw [hg] at hg0
          cases hg0
          exact absurd rfl hk
        · exact ih _ ⟨nd0, h0', hg0⟩
            fun nd' h1 => hagree nd' (List.mem_cons_of_mem _ h1)

theorem nodeSize_eq (n : PyNode) : nodeSize n = sizeL n.children + 1 := by
  cases n <;> simp [nodeSize, PyNode.children, Nat.add_comm]

theorem sizeL_append (a b : List PyNode) :
    sizeL (a ++ b) = sizeL a + sizeL b := by
  induction a with
  | nil => simp [sizeL]
  | cons n ns ih => simp [sizeL, ih, Nat.add_assoc]

theorem allNodes_eq (n : PyNode) : allNodes n = n :: allNodesL n.children := by
  cases n <;> rfl

theorem mem_allNodesL (x : PyNode) (l : List PyNode) :
    x ∈ allNodesL l ↔ ∃ nd ∈ l, x ∈ allNodes nd := by
  induction l with
  | nil => simp [allNodesL]
  | cons n ns ih =>
    simp only [allNodesL, List.mem_append, ih, List.mem_cons]
    constructor
    · rintro (h | ⟨nd, h1, h2⟩)
      · exact ⟨n, Or.inl rfl, h⟩
      · exact ⟨nd, Or.inr h1, h2⟩
    · rintro ⟨nd, (rfl | h1), h2⟩
      · exact Or.inl h2
      · exact Or.inr ⟨nd, h1, h2⟩

theorem self_mem_allNodes (n : PyNode) : n ∈ allNodes n := by
  rw [allNodes_eq]
  exact List.mem_cons_self _ _

theorem mem_walkAux (x : PyNode) : ∀ fuel queue, sizeL queue ≤ fuel →
    (x ∈ walkAux fuel queue ↔ ∃ nd ∈ queue, x ∈ allNodes nd) := by
  intro fuel
  induction fuel with
  | zero =>
    intro queue h
    cases queue with
    | nil => simp [walkAux]
    | cons n q =>
      exfalso
      have h1 := nodeSize_eq n
      simp [sizeL] at h
      omega
  | succ fuel ih =>
    intro queue h
    cases queue with
    | nil => simp [walkAux]
    | cons n q =>
      have hb : sizeL (q ++ n.children) ≤ fuel := by
        rw [sizeL_append]
        have h1 := nodeSize_eq n
        simp [sizeL] at h
        omega
      simp only [walkAux, List.mem_cons, ih _ hb, List.mem_append]
      constructor
      · rintro (rfl | ⟨nd, (h1 | h1), h2⟩)
        · exact ⟨_, Or.inl rfl, self_mem_allNodes _⟩
        · exact ⟨nd, Or.inr h1, h2⟩
        · refine ⟨n, Or.inl rfl, ?_⟩
          rw [allNodes_eq, List.mem_cons, mem_allNodesL]
          exact Or.inr ⟨nd, h1, h2⟩
      · rintro ⟨nd, (rfl | h1), h2⟩
        · rw [allNodes_eq, List.mem_cons, mem_allNodesL] at h2
          rcases h2 with rfl | ⟨c, h3, h4⟩
          · exact Or.inl rfl
          · exact Or.inr ⟨c, Or.inr h3, h4⟩
        · exact Or.inr ⟨nd, Or.inl h1, h2⟩

theorem mem_walkList (x : PyNode) (roots : List PyNode) :
    x ∈ walkList roots ↔ x ∈ allNodesL roots := by
  rw [walkList, mem_walkAux x _ _ (Nat.le_refl _), mem_allNodesL]

theorem mem_dkeys_extract (k : String) (m : PyModule) :
    k ∈ dkeys (extract_api m) ↔
      ∃ nd ∈ allNodesL m.body, ∃ v, defSig nd = some (k, v) := by
  unfold extract_api
  rw [mem_dkeys_afold]
  simp only [dkeys, List.map_nil, List.not_mem_nil, false_or, mem_walkList]

theorem agreesOn_spec [DecidableEq β] (g : PyNode → Option (String × β))
    (k : String) (v : β) (l : List PyNode) (h : agreesOn g k v l = true) :
    ∀ nd ∈ l, ∀ v', g nd = some (k, v') → v' = v := by
  intro nd hnd v' hg
  have h1 := List.all_eq_true.mp h nd hnd
  rw [hg] at h1
  exact of_decide_eq_true h1 rfl

theorem mem_allNodes_of_child (c n : PyNode) (h : c ∈ n.children) :
    c ∈ allNodes n := by
  rw [allNodes_eq, List.mem_cons]
  exact Or.inr ((mem_allNodesL c n.children).mpr ⟨c, h, self_mem_allNodes c⟩)

theorem scanKeysAux (fs : List FileEntry) : ∀ acc snap,
    scan_package acc fs = .ok snap → ∀ p,
      (p ∈ dkeys snap ↔ p ∈ dkeys acc ∨
        ∃ e ∈ fs, eligible e = true ∧ e.path = p) := by
  induction fs with
  | nil =>
    intro acc snap h p
    simp only [scan_package, Except.ok.injEq] at h
    subst h
    simp
  | cons e rest ih =>
    intro acc snap h p
    by_cases he : eligible e = true
    · cases ht : e.tree with
      | error msg =>
        simp [scan_package, he, ht] at h
      | ok m =>
        simp only [scan_package, he, if_pos, ht] at h
        rw [ih _ _ h p, mem_dkeys_dinsert]
        constructor
        · rintro ((rfl | h1) | ⟨e', h2, h3, h4⟩)
          · exact Or.inr ⟨e, List.mem_cons_self _ _, he, rfl⟩
          · exact Or.inl h1
          · exact Or.inr ⟨e', List.mem_cons_of_mem _ h2, h3, h4⟩
        · rintro (h1 | ⟨e', h2, h3, h4⟩)
          · exact Or.inl (Or.inr h1)
          · rcases List.mem_cons.mp h2 with rfl | h5
            · exact Or.inl (Or.inl h4.symm)
            · exact Or.inr ⟨e', h5, h3, h4⟩
    · simp only [scan_package, he, if_neg, Bool.false_eq_true] at h
      rw [ih _ _ h p]
      constructor
      · rintro (h1 | ⟨e', h2, h3, h4⟩)
        · exact Or.inl h1
        · exact Or.inr ⟨e', List.mem_cons_of_mem _ h2, h3, h4⟩
      · rintro (h1 | ⟨e', h2, h3, h4⟩)
        · exact Or.inl h1
        · rcases List.mem_cons.mp h2 with rfl | h5
          · exact absurd h3 he
          · exact Or.inr ⟨e', h5, h3, h4⟩

theorem scan_err (fs : List FileEntry) : ∀ acc,
    (∃ e ∈ fs, eligible e = true ∧ ∃ msg, e.tree = .error msg) →
    ∃ m, scan_package acc fs = .error m ∧
      ∃ e ∈ fs, eligible e = true ∧ e.tree = .error m := by
  induction fs with
  | nil =>
    rintro acc ⟨e, he, _⟩
    simp at he
  | cons e0 rest ih =>
    rintro acc ⟨e, he, helig, msg, herr⟩
    by_cases h0 : eligible e0 = true
    · cases ht : e0.tree with
      | error m0 =>
        refine ⟨m0, by simp [scan_package, h0, ht], e0, List.mem_cons_self _ _, h0, ht⟩
      | ok mod =>
        have hrest : e ∈ rest := by
          rcases List.mem_cons.mp he with rfl | h
          · rw [ht] at herr
            cases herr
          · exact h
        obtain ⟨m, hscan, e', he', h1, h2⟩ :=
          ih (dinsert e0.path (extract_api mod) acc) ⟨e, hrest, helig, msg, herr⟩
        refine ⟨m, ?_, e', List.mem_cons_of_mem _ he', h1, h2⟩
        simpa [scan_package, h0, ht] using hscan
    · have hrest : e ∈ rest := by
        rcases List.mem_cons.mp he with rfl | h
        · exact absurd helig h0
        · exact h
      obtain ⟨m, hscan, e', he', h1, h2⟩ := ih acc ⟨e, hrest, helig, msg, herr⟩
      refine ⟨m, ?_, e', List.mem_cons_of_mem _ he', h1, h2⟩
      simpa [scan_package, h0] using hscan

theorem run_eq_err (store : Store) (found : List FileEntry) (d : Bool)
    (api0 : Snapshot) (m : String)
    (hload : load_api_signatures store = .ok api0)
    (hscan : scan_package api0 found = .error m) :
    run store found d = (store, .error m) := by
  simp only [run, hload, hscan]

/-- C1: the claim states that `detect_changes` visits the union of the file
keys of both snapshots, so that a file present only in the old snapshot has
each of its declarations emitted as `Removed` and counted toward the major
counter. The code iterates `new_signatures.items()` only
(`main.py` line 115): at the input below — old snapshot holding `f.py` with
one declaration, new snapshot empty — it emits no change record at all,
every counter stays zero, and the version is returned unchanged, where the
claim requires one `Removed` record and a major bump. -/
theorem detect_changes_skips_deleted_file :
    detect_changes "1.0.0" [("f.py", [("foo", Sig.func "def foo()")])] [] =
      .ok ("1.0.0", []) := rfl

/-- C2 counterexample: scanning with the previously loaded snapshot holding
the key `gone.py` while the walk finds no files at all leaves `gone.py` —
with its stale contents — in the snapshot `run` then uses for diffing and
persistence, where the claim requires the key to be absent. -/
theorem scan_package_keeps_stale_key :
    scan_package [("gone.py", [("foo", Sig.func "def foo()")])] [] =
      .ok [("gone.py", [("foo", Sig.func "def foo()")])] ∧
    "gone.py" ∈ dkeys [("gone.py", [("foo", Sig.func "def foo()")])] :=
  ⟨rfl, List.mem_cons_self _ _⟩

/-- C2 (amended): after a scan the snapshot's keys are the keys of the
snapshot the scan started from (the one loaded from the store) together
with the paths of the eligible files the walk found; a key of a file that
no longer exists is retained in the new snapshot used for diffing and
persistence, not dropped. -/
theorem scan_package_keys_union (acc : Snapshot) (fs : List FileEntry)
    (snap : Snapshot) (h : scan_package acc fs = .ok snap) (p : String) :
    p ∈ dkeys snap ↔ p ∈ dkeys acc ∨ ∃ e ∈ fs, eligible e = true ∧ e.path = p :=
  scanKeysAux fs acc snap h p

/-- Witness for the amended C2: a one-file scan starting from a snapshot
with a stale key. -/
theorem scan_package_keys_union_inst :
    scan_package [("gone.py", ([] : FileSigs))] [⟨"p/a.py", "a.py", .ok ⟨[]⟩⟩] =
      .ok [("gone.py", ([] : FileSigs)), ("p/a.py", ([] : FileSigs))] ∧
    ("gone.py" ∈ dkeys [("gone.py", ([] : FileSigs)), ("p/a.py", ([] : FileSigs))] ↔
      "gone.py" ∈ dkeys [("gone.py", ([] : FileSigs))] ∨
      ∃ e ∈ [(⟨"p/a.py", "a.py", .ok ⟨[]⟩⟩ : FileEntry)],
        eligible e = true ∧ e.path = "gone.py") :=
  ⟨rfl, scan_package_keys_union [("gone.py", ([] : FileSigs))]
    [⟨"p/a.py", "a.py", .ok ⟨[]⟩⟩]
    [("gone.py", ([] : FileSigs)), ("p/a.py", ([] : FileSigs))] rfl "gone.py"⟩

/-- C3 counterexample: `extract_api` applies no filter to declaration
names — the only underscore test in the program is on file names in
`scan_package` — so a top-level function named `_private` appears in the
extracted `FileSignatureSet`, where the claim says it never does. -/
theorem extract_api_keeps_underscore_name :
    extract_api ⟨[.funcDef "_private" ["x"] []]⟩ =
      [("_private", Sig.func "def _private(x)")] ∧
    strStarts "_private" "_" = true := ⟨rfl, rfl⟩

/-- C3 (amended): a top-level declaration whose name begins with an
underscore appears as a key of the extracted `FileSignatureSet` exactly
like a public one; the underscore exclusion in the code applies only to
file names during the scan, never to declaration names. -/
theorem extract_api_no_name_filter (m : PyModule) (nd : PyNode) (n : String)
    (v : Sig) (h1 : nd ∈ m.body) (h2 : defSig nd = some (n, v))
    (_h3 : strStarts n "_" = true) : n ∈ dkeys (extract_api m) := by
  rw [mem_dkeys_extract]
  exact ⟨nd, (mem_allNodesL nd m.body).mpr ⟨nd, h1, self_mem_allNodes nd⟩, v, h2⟩

/-- Witness for the amended C3: the `_private` function of the
counterexample module. -/
theorem extract_api_no_name_filter_inst :
    defSig (.funcDef "_private" ["x"] []) =
      some ("_private", Sig.func "def _private(x)") ∧
    strStarts "_private" "_" = true ∧
    "_private" ∈ dkeys (extract_api ⟨[.funcDef "_private" ["x"] []]⟩) :=
  ⟨rfl, rfl,
    extract_api_no_name_filter ⟨[.funcDef "_private" ["x"] []]⟩ _ _ _
      (List.mem_cons_self _ _) rfl rfl⟩

/-- C4 counterexample: `extract_api` iterates `ast.walk(tree)`, which
yields every node at every depth, so the function `g` defined inside the
body of `f` appears as a key of the `FileSignatureSet`, where the claim
says declarations nested more deeply than the two described levels never
do. -/
theorem extract_api_keeps_nested_def :
    extract_api ⟨[.funcDef "f" [] [.funcDef "g" ["a"] []]]⟩ =
      [("f", Sig.func "def f()"), ("g", Sig.func "def g(a)")] := rfl

/-- C4 (amended): the extractor records declarations at every nesting
depth: any `FunctionDef` or `ClassDef` node anywhere in the module's tree
contributes its name as a key of the `FileSignatureSet`. -/
theorem extract_api_records_all_depths (m : PyModule) (nd : PyNode)
    (n : String) (v : Sig) (h1 : nd ∈ allNodesL m.body)
    (h2 : defSig nd = some (n, v)) : n ∈ dkeys (extract_api m) := by
  rw [mem_dkeys_extract]
  exact ⟨nd, h1, v, h2⟩

/-- Witness for the amended C4: the doubly nested `g` of the
counterexample module. -/
theorem extract_api_records_all_depths_inst :
    (PyNode.funcDef "g" ["a"] []) ∈
      allNodesL [.funcDef "f" [] [.funcDef "g" ["a"] []]] ∧
    "g" ∈ dkeys (extract_api ⟨[.funcDef "f" [] [.funcDef "g" ["a"] []]]⟩) :=
  ⟨List.mem_cons_of_mem _ (List.mem_cons_self _ _),
    extract_api_records_all_depths ⟨[.funcDef "f" [] [.funcDef "g" ["a"] []]]⟩ _ _ _
      (List.mem_cons_of_mem _ (List.mem_cons_self _ _)) rfl⟩

/-- C5: for every change tally and every current version the `semver` core
parses, `increment_version` applies exactly one bump: a positive major
count increments the major component and resets minor and patch; otherwise
a positive minor count increments the minor component and resets patch;
otherwise a positive patch count increments the patch component; otherwise
the version is returned unchanged — whatever the counters' sizes. -/
theorem increment_version_single_bump (cur : String) (v : SemVersion)
    (major minor patch : Nat) (h : parseVersion cur = some v) :
    increment_version cur major minor patch = .ok (renderVersion
      (if major ≠ 0 then ⟨v.major + 1, 0, 0⟩
       else if minor ≠ 0 then ⟨v.major, v.minor + 1, 0⟩
       else if patch ≠ 0 then ⟨v.major, v.minor, v.patch + 1⟩
       else v)) := by
  simp only [increment_version, h, bumpMajor, bumpMinor, bumpPatch]

/-- Witness for C5: version 1.4.2 with a tally of 2 breaking changes,
3 additions and 1 patch-level change bumps to exactly 2.0.0. -/
theorem increment_version_single_bump_inst :
    parseVersion "1.4.2" = some ⟨1, 4, 2⟩ ∧
    increment_version "1.4.2" 2 3 1 = .ok "2.0.0" :=
  ⟨rfl, increment_version_single_bump "1.4.2" ⟨1, 4, 2⟩ 2 3 1 rfl⟩

/-- C6: a dry run never writes the store: on every control path of `run`
with `dry_run = true` — load failure, scan failure, no changes, version
parse failure, or a computed bump — the resulting store equals the initial
one, field for field. -/
theorem run_dry_preserves_store (store : Store) (found : List FileEntry) :
    (run store found true).1 = store := by
  unfold run
  cases hl : load_api_signatures store with
  | error e => rfl
  | ok api0 =>
    dsimp only
    cases hs : scan_package api0 found with
    | error e => rfl
    | ok newSigs =>
      dsimp only
      by_cases hb : snapEq api0 newSigs = true
      · simp [hb]
      · simp only [hb, Bool.false_eq_true, if_false, ite_false]
        cases hd : detect_changes (load_version store) api0 newSigs with
        | error e => simp [hd]
        | ok p => simp [hd, save_version]

/-- C7 counterexample: a store whose `api_signatures` field holds `"x"` —
one base64 data character, which `base64.b64decode` rejects with
`binascii.Error` — makes `load_api_signatures` propagate the error instead
of silently returning the empty snapshot as the claim states. -/
theorem load_api_signatures_raises_on_undecodable :
    load_api_signatures ⟨true, some (some "1.0.0"), "x", []⟩ =
      .error "binascii.Error: Invalid base64-encoded string" := rfl

/-- C7 (amended): when the stored signatures field is present but
undecodable, the decode error propagates out of `load_api_signatures`
(aborting the construction of the inspector); only an absent store or a
missing/empty field silently yields the empty snapshot. -/
theorem load_api_signatures_propagates_decode_error (store : Store)
    (e : String) (h1 : store.present = true)
    (h2 : store.apiSignaturesField ≠ "")
    (h3 : decodeApiSignatures store.apiSignaturesField = .error e) :
    load_api_signatures store = .error e := by
  unfold load_api_signatures
  rw [h1]
  simp [h2, h3]

/-- Witness for the amended C7: the field `"!"` decodes (after the base64
stage discards the non-alphabet character) to the empty string, which the
JSON stage rejects; the error propagates. -/
theorem load_api_signatures_propagates_decode_error_inst :
    (("!" : String) ≠ "") ∧
    decodeApiSignatures "!" = .error "json.decoder.JSONDecodeError: Expecting value" ∧
    load_api_signatures ⟨true, none, "!", []⟩ =
      .error "json.decoder.JSONDecodeError: Expecting value" :=
  ⟨by decide, rfl,
    load_api_signatures_propagates_decode_error ⟨true, none, "!", []⟩ _ rfl
      (by decide) rfl⟩

/-- C8: when the stored snapshot loads and some eligible source file fails
to parse, the run propagates a parse error — the error of an eligible
failing file of the scan — and the store is left exactly as it was:
nothing is persisted. -/
theorem run_parse_error_aborts (store : Store) (api0 : Snapshot)
    (found : List FileEntry) (d : Bool) (e : FileEntry) (msg : String)
    (hload : load_api_signatures store = .ok api0)
    (hmem : e ∈ found) (helig : eligible e = true)
    (herr : e.tree = .error msg) :
    (run store found d).1 = store ∧
      ∃ m, (run store found d).2 = .error m ∧
        ∃ e' ∈ found, eligible e' = true ∧ e'.tree = .error m := by
  obtain ⟨m, hscan, hwit⟩ := scan_err found api0 ⟨e, hmem, helig, msg, herr⟩
  rw [run_eq_err store found d api0 m hload hscan]
  exact ⟨rfl, m, rfl, hwit⟩

/-- Witness for C8: a fresh store and a single unparseable file. -/
theorem run_parse_error_aborts_inst :
    load_api_signatures ⟨true, some (some "1.0.0"), "", []⟩ = .ok [] ∧
    eligible ⟨"p/bad.py", "bad.py", .error "SyntaxError: invalid decimal literal (bad.py, line 3)"⟩ = true ∧
    ((run ⟨true, some (some "1.0.0"), "", []⟩
        [⟨"p/bad.py", "bad.py", .error "SyntaxError: invalid decimal literal (bad.py, line 3)"⟩] false).1 =
      ⟨true, some (some "1.0.0"), "", []⟩ ∧
      ∃ m, (run ⟨true, some (some "1.0.0"), "", []⟩
          [⟨"p/bad.py", "bad.py", .error "SyntaxError: invalid decimal literal (bad.py, line 3)"⟩] false).2 =
            .error m ∧
        ∃ e' ∈ [(⟨"p/bad.py", "bad.py", .error "SyntaxError: invalid decimal literal (bad.py, line 3)"⟩ : FileEntry)],
          eligible e' = true ∧ e'.tree = .error m) :=
  ⟨rfl, rfl,
    run_parse_error_aborts ⟨true, some (some "1.0.0"), "", []⟩ [] _ false _
      "SyntaxError: invalid decimal literal (bad.py, line 3)" rfl (List.mem_cons_self _ _) rfl rfl⟩

/-- C9 counterexample: a non-dry-run on a package with no configuration
store file finds a new snapshot that differs from the (empty) old one and
completes with a bump decision, yet nothing is persisted — `save_version`
writes only when the store file exists (and has a `project` table), so the
store is unchanged, where the claim says persistence happens. -/
theorem run_absent_store_not_persisted :
    run ⟨false, none, "", []⟩ [⟨"p/a.py", "a.py", .ok ⟨[.funcDef "foo" [] []]⟩⟩]
      false =
      (⟨false, none, "", []⟩, .ok (.updated "0.2.0" ["Added foo in p/a.py"])) := rfl

/-- C9 (amended): for a non-dry-run whose new snapshot differs from the
old one, when additionally the store file exists and contains a `project`
table, the new version string, the serialized new snapshot and the change
list are written to the store together; without an existing store with a
`project` table, nothing is written. -/
theorem run_persists_all_fields (store : Store) (found : List FileEntry)
    (api0 newSigs : Snapshot) (pv : Option String) (newVer : String)
    (changes : List String) (hp : store.present = true)
    (hpv : store.projectVersion = some pv)
    (hload : load_api_signatures store = .ok api0)
    (hscan : scan_package api0 found = .ok newSigs)
    (hne : snapEq api0 newSigs = false)
    (hdet : detect_changes (load_version store) api0 newSigs =
      .ok (newVer, changes)) :
    run store found false =
      ({ store with
          projectVersion := some (some newVer)
          apiSignaturesField := serializeSnapshot newSigs
          lastChanges := changes }, .ok (.updated newVer changes)) := by
  simp only [run, hload, hscan, hne, hdet, Bool.false_eq_true, if_false,
    ite_false, save_version, hp, hpv, if_true, ite_true]

/-- Witness for the amended C9: an existing store with a `project` table,
a one-function package, and the three fields written together. -/
theorem run_persists_all_fields_inst :
    load_api_signatures ⟨true, some (some "1.0.0"), "", []⟩ = .ok [] ∧
    scan_package [] [⟨"p/a.py", "a.py", .ok ⟨[.funcDef "foo" [] []]⟩⟩] =
      .ok [("p/a.py", [("foo", Sig.func "def foo()")])] ∧
    snapEq [] [("p/a.py", [("foo", Sig.func "def foo()")])] = false ∧
    detect_changes "1.0.0" [] [("p/a.py", [("foo", Sig.func "def foo()")])] =
      .ok ("1.1.0", ["Added foo in p/a.py"]) ∧
    run ⟨true, some (some "1.0.0"), "", []⟩
        [⟨"p/a.py", "a.py", .ok ⟨[.funcDef "foo" [] []]⟩⟩] false =
      (⟨true, some (some "1.1.0"),
        serializeSnapshot [("p/a.py", [("foo", Sig.func "def foo()")])],
        ["Added foo in p/a.py"]⟩, .ok (.updated "1.1.0" ["Added foo in p/a.py"])) :=
  ⟨rfl, rfl, rfl, rfl,
    run_persists_all_fields ⟨true, some (some "1.0.0"), "", []⟩ _ [] _
      (some "1.0.0") "1.1.0" ["Added foo in p/a.py"] rfl rfl rfl rfl rfl rfl⟩

/-- C10: in a module with a top-level class holding a directly nested
method, that method's name appears twice in the extracted
`FileSignatureSet`: inside the class's method mapping and as a separate
top-level key bound to its callable signature string — `ast.walk` visits
the method node itself after the class node. The agreement hypotheses pin
the two names' values against redefinitions elsewhere in the module, under
which the bindings are exactly the class's and the method's signatures. -/
theorem extract_api_method_twice (m : PyModule) (cls mn : String)
    (cbody : List PyNode) (margs : List String) (mbody : List PyNode)
    (hC : PyNode.classDef cls cbody ∈ m.body)
    (hm : PyNode.funcDef mn margs mbody ∈ cbody)
    (huC : agreesOn defSig cls (Sig.cls (get_class_signature cbody))
      (allNodesL m.body) = true)
    (hum : agreesOn defSig mn (Sig.func (get_function_signature mn margs))
      (allNodesL m.body) = true) :
    dget mn (get_class_signature cbody) = some (get_function_signature mn margs) ∧
    dget cls (extract_api m) = some (Sig.cls (get_class_signature cbody)) ∧
    dget mn (extract_api m) = some (Sig.func (get_function_signature mn margs)) := by
  have hCall : PyNode.classDef cls cbody ∈ allNodesL m.body :=
    (mem_allNodesL _ _).mpr ⟨_, hC, self_mem_allNodes _⟩
  have hchild : ∀ c ∈ cbody, c ∈ allNodesL m.body := by
    intro c hc
    exact (mem_allNodesL _ _).mpr ⟨_, hC, mem_allNodes_of_child c _ hc⟩
  have hagreeC := agreesOn_spec defSig cls _ _ huC
  have hagreeM := agreesOn_spec defSig mn _ _ hum
  refine ⟨?_, ?_, ?_⟩
  · unfold get_class_signature
    apply dget_afold_of_mem methodSig mn (get_function_signature mn margs) cbody []
    · exact ⟨_, hm, rfl⟩
    · intro c hc s' hms
      cases c with
      | funcDef n a b =>
        simp only [methodSig, Option.some.injEq, Prod.mk.injEq] at hms
        obtain ⟨hn, hs⟩ := hms
        subst hn
        have hd : defSig (.funcDef n a b) =
          some (n, Sig.func (get_function_signature n a)) := rfl
        have h2 := hagreeM _ (hchild _ hc) _ hd
        have h3 : get_function_signature n a = get_function_signature n margs := by
          injection h2
        rw [← hs]
        exact h3
      | classDef n b => simp [methodSig] at hms
      | other cs => simp [methodSig] at hms
  · unfold extract_api
    apply dget_afold_of_mem defSig cls _ (walkList m.body) []
    · exact ⟨_, (mem_walkList _ _).mpr hCall, rfl⟩
    · intro nd hnd v' hdv
      exact hagreeC nd ((mem_walkList _ _).mp hnd) v' hdv
  · unfold extract_api
    apply dget_afold_of_mem defSig mn _ (walkList m.body) []
    · exact ⟨_, (mem_walkList _ _).mpr (hchild _ hm), rfl⟩
    · intro nd hnd v' hdv
      exact hagreeM nd ((mem_walkList _ _).mp hnd) v' hdv

/-- Witness for C10: a module holding one class `C` with one method `m`. -/
theorem extract_api_method_twice_inst :
    (PyNode.classDef "C" [.funcDef "m" ["self"] []]) ∈
      [PyNode.classDef "C" [.funcDef "m" ["self"] []]] ∧
    (PyNode.funcDef "m" ["self"] []) ∈ [PyNode.funcDef "m" ["self"] []] ∧
    dget "m" (get_class_signature [.funcDef "m" ["self"] []]) =
      some (get_function_signature "m" ["self"]) ∧
    dget "C" (extract_api ⟨[.classDef "C" [.funcDef "m" ["self"] []]]⟩) =
      some (Sig.cls (get_class_signature [.funcDef "m" ["self"] []])) ∧
    dget "m" (extract_api ⟨[.classDef "C" [.funcDef "m" ["self"] []]]⟩) =
      some (Sig.func (get_function_signature "m" ["self"])) := by
  refine ⟨List.mem_cons_self _ _, List.mem_cons_self _ _, ?_⟩
  exact extract_api_method_twice ⟨[.classDef "C" [.funcDef "m" ["self"] []]]⟩
    "C" "m" [.funcDef "m" ["self"] []] ["self"] []
    (List.mem_cons_self _ _) (List.mem_cons_self _ _) rfl rfl

end Semverer
